import Mathlib

/-!
Verification development for the Loyverse → Supabase inventory syncer.

The TypeScript source is shallowly embedded: each upstream record type
becomes a structure, the JS `Map`-based lookups become functions
`String → Option _` built by left folds (so that, as with `Map.set`,
a later binding overwrites an earlier one), and the two orchestrator
entry points (`fullSync`, `incrementalSync` in sync-service.ts) become
pure functions over an environment that records, for every awaited
upstream/store call, whether it returns a value or throws an error
message.  Numeric fields use `Rat` (JS numbers excluding NaN/Infinity),
`Math.floor` is `Rat.floor`, and timestamps are `Nat` ticks.
-/

/-- Category record fetched from Loyverse (src/types.ts, `LoyverseCategory`);
only the fields read by the sync pipeline are carried. -/
structure LoyverseCategory where
  id : String
  name : String
deriving DecidableEq, Repr

/-- Item record (src/types.ts, `LoyverseItem`); `description` and
`category_id` are optional in the source, the remaining fields are never
read by the reconciliation core. -/
structure LoyverseItem where
  id : String
  item_name : String
  description : Option String
  category_id : Option String
deriving DecidableEq, Repr

/-- Variant record (src/types.ts, `LoyverseVariant`); `sku` and the three
option values are optional strings, `default_price` is a number. -/
structure LoyverseVariant where
  variant_id : String
  item_id : String
  sku : Option String
  option1_value : Option String
  option2_value : Option String
  option3_value : Option String
  default_price : Rat
deriving DecidableEq, Repr

/-- Inventory record (src/types.ts, `LoyverseInventory`): one per
variant × store, with the on-hand quantity `in_stock`. -/
structure LoyverseInventory where
  variant_id : String
  store_id : String
  in_stock : Rat
deriving DecidableEq, Repr

/-- Row of the persisted `products` table (src/types.ts, `SupabaseProduct`). -/
structure SupabaseProduct where
  sku : String
  name : String
  category : Option String
  desc : Option String
  price : Rat
  qty : Int
  image : Option String
deriving DecidableEq, Repr

/-- The join-stage output unit (src/types.ts, `ProductWithInventory`). -/
structure ProductWithInventory where
  variant : LoyverseVariant
  item : LoyverseItem
  inventory : LoyverseInventory
  categoryName : Option String
deriving DecidableEq, Repr

/-- JS string truthiness for `a || b` on an optional string:
`undefined` and `""` are falsy. -/
def jsStrOr (a : Option String) (b : String) : String :=
  match a with
  | some s => if s = "" then b else s
  | none => b

/-- The expression `variant.sku || variant.variant_id` (sync-service.ts:97,
supabase-service.ts:38): the effective SKU. -/
def effectiveSku (v : LoyverseVariant) : String :=
  jsStrOr v.sku v.variant_id

/-- The expression `x || null` for an optional string (supabase-service.ts:40-41):
an empty string is replaced by null. -/
def jsStrOrNull (a : Option String) : Option String :=
  match a with
  | some s => if s = "" then none else some s
  | none => none

/-- The expression `inventory?.in_stock || 0` (supabase-service.ts:35): on a number,
`|| 0` maps 0 to 0 and leaves every other rational unchanged. -/
def jsNumOr0 (q : Rat) : Rat :=
  if q = 0 then 0 else q

/-- The lookup `new Map(categories.map(cat => [cat.id, cat.name]))`
(sync-service.ts:32): later bindings overwrite earlier ones. -/
def buildCategoryMap (cats : List LoyverseCategory) : String → Option String :=
  cats.foldl (fun m c => fun k => if k = c.id then some c.name else m k) (fun _ => none)

/-- The lookup `new Map(items.map(item => [item.id, item]))` (sync-service.ts:40). -/
def buildItemsMap (items : List LoyverseItem) : String → Option LoyverseItem :=
  items.foldl (fun m it => fun k => if k = it.id then some it else m k) (fun _ => none)

/-- The inventory aggregation loop (sync-service.ts:53-57):
`inventoryMap.set(v, (inventoryMap.get(v) || 0) + inv.in_stock)`
folded over all inventory records. -/
def buildInventoryMap (invs : List LoyverseInventory) : String → Option Rat :=
  invs.foldl
    (fun m inv => fun k =>
      if k = inv.variant_id then some ((m inv.variant_id).getD 0 + inv.in_stock) else m k)
    (fun _ => none)

/-- Specification-side per-variant total: the exact sum of `in_stock`
over the records sharing the given variant identifier. -/
def sumInStock (invs : List LoyverseInventory) (vid : String) : Rat :=
  ((invs.filter (fun r => r.variant_id == vid)).map (fun r => r.in_stock)).sum

/-- The expression `item.category_id ? categoryMap.get(item.category_id) : undefined`
(sync-service.ts:76): an absent or empty category id yields undefined. -/
def lookupCategoryName (categoryMap : String → Option String) (item : LoyverseItem) :
    Option String :=
  match item.category_id with
  | some cid => if cid = "" then none else categoryMap cid
  | none => none

/-- The join/flatten stage (sync-service.ts:61-79, shared verbatim by the
incremental path at lines 225-243): for each variant resolve its item
(skipping the variant when the lookup misses), aggregate its quantity,
attach the first matching raw inventory record with `in_stock` replaced
by the total (or a synthetic record when none exists), and resolve the
category name. -/
def joinVariants (categoryMap : String → Option String)
    (itemsMap : String → Option LoyverseItem) (invMap : String → Option Rat)
    (invs : List LoyverseInventory) (vars : List LoyverseVariant) :
    List ProductWithInventory :=
  vars.filterMap (fun variant =>
    match itemsMap variant.item_id with
    | none => none
    | some item =>
      let totalQty := (invMap variant.variant_id).getD 0
      let inventory :=
        match invs.find? (fun inv => inv.variant_id == variant.variant_id) with
        | some inv => { inv with in_stock := totalQty }
        | none => { variant_id := variant.variant_id, store_id := "", in_stock := totalQty }
      some { variant := variant, item := item, inventory := inventory,
             categoryName := lookupCategoryName categoryMap item })

/-- The full-sync join (sync-service.ts:26-79): lookups built from the
complete fetched collections, then the shared join stage. -/
def joinedProducts (cats : List LoyverseCategory) (items : List LoyverseItem)
    (vars : List LoyverseVariant) (invs : List LoyverseInventory) :
    List ProductWithInventory :=
  joinVariants (buildCategoryMap cats) (buildItemsMap items) (buildInventoryMap invs) invs vars

/-- One `options.push(...)` guarded by JS truthiness
(supabase-service.ts:26-28). -/
def pushTruthy (acc : List String) (o : Option String) : List String :=
  match o with
  | some s => if s = "" then acc else acc ++ [s]
  | none => acc

/-- The pushed option values, in option1 → option2 → option3 order
(supabase-service.ts:24-28). -/
def optionValues (v : LoyverseVariant) : List String :=
  pushTruthy (pushTruthy (pushTruthy [] v.option1_value) v.option2_value) v.option3_value

/-- Product display-name composition (supabase-service.ts:22-32):
the item name, plus a parenthesized comma-joined option list when at
least one option value is present. -/
def composeName (item : LoyverseItem) (v : LoyverseVariant) : String :=
  let options := optionValues v
  if options.length > 0 then
    item.item_name ++ " (" ++ String.intercalate ", " options ++ ")"
  else item.item_name

/-- The row built for upsert from one joined product
(supabase-service.ts:21-46). -/
def toSupabaseProduct (p : ProductWithInventory) : SupabaseProduct :=
  { sku := effectiveSku p.variant,
    name := composeName p.item p.variant,
    category := jsStrOrNull p.categoryName,
    desc := jsStrOrNull p.item.description,
    price := p.variant.default_price,
    qty := Rat.floor (jsNumOr0 p.inventory.in_stock),
    image := none }

/-- The filter `products.filter(p => p.sku)` (supabase-service.ts:49): rows whose
SKU is empty are excluded from persistence. -/
def validProducts (pd : List ProductWithInventory) : List SupabaseProduct :=
  (pd.map toSupabaseProduct).filter (fun p => p.sku != "")

/-- The current pass's effective SKUs (sync-service.ts:95-99):
`productsData.map(p => p.variant.sku || p.variant.variant_id).filter(sku => sku)`. -/
def currentPassSkus (pd : List ProductWithInventory) : List String :=
  (pd.map (fun p => effectiveSku p.variant)).filter (fun sku => sku != "")

/-- The deletion diff (sync-service.ts:102):
`existingSkus.filter(sku => !loyverseSkus.has(sku))`. -/
def skusToDelete (existing : List String) (pd : List ProductWithInventory) : List String :=
  existing.filter (fun sku => !((currentPassSkus pd).contains sku))

/-- The persisted `products` table: a list of rows keyed by the
`sku` column (unique in the schema). -/
abbrev Table := List SupabaseProduct

/-- The SKUs enumerated by `getAllProductSkus`
(supabase-service.ts:117-158), with the page-size-1000 pagination
accumulated into one list. -/
def tableKeys (t : Table) : List String :=
  t.map (fun r => r.sku)

/-- Whether some row already carries the given SKU. -/
def tableHasKey (t : Table) (k : String) : Bool :=
  t.any (fun r => r.sku == k)

/-- One row of `upsert(..., { onConflict: 'sku' })`: replace the row
with a matching SKU, or append a fresh row. -/
def tableUpsertOne (t : Table) (p : SupabaseProduct) : Table :=
  if tableHasKey t p.sku then t.map (fun r => if r.sku == p.sku then p else r)
  else t ++ [p]

/-- The batch upsert (supabase-service.ts:55-67): chunks of 100 are
awaited strictly in order, so the table evolves as the left fold of
single-row upserts over the product list. -/
def tableUpsert (t : Table) (ps : List SupabaseProduct) : Table :=
  ps.foldl tableUpsertOne t

/-- Row lookup by SKU (the store's keyed read). -/
def tableGet (t : Table) (k : String) : Option SupabaseProduct :=
  t.find? (fun r => r.sku == k)

/-- The batch delete (supabase-service.ts:172-188): chunks of 100
whose union removes every row whose SKU appears in the request. -/
def tableDelete (t : Table) (skus : List String) : Table :=
  t.filter (fun r => !(skus.contains r.sku))

/-- The count returned by `deleteProductsBySkus`: the number of rows
actually removed (`data?.length` summed over chunks). -/
def deleteCount (t : Table) (skus : List String) : Nat :=
  (t.filter (fun r => skus.contains r.sku)).length

/-- Row of the `sync_logs` ledger written by `logSync`
(supabase-service.ts:94-113). -/
structure LedgerEntry where
  sync_type : String
  products_synced : Nat
  errors : List String
  started_at : Nat
  completed_at : Option Nat
  status : String
deriving DecidableEq, Repr

/-- The `SyncResult` returned to the caller (src/types.ts). -/
structure SyncResult where
  products_synced : Nat
  products_deleted : Nat
  errors : List String
  started_at : Nat
  completed_at : Nat
deriving DecidableEq, Repr

/-- Everything observable about one sync invocation: the returned
result, the ledger rows appended, the table afterwards, and the SKUs
issued for deletion. -/
structure FullOutcome where
  result : SyncResult
  ledger : List LedgerEntry
  table : Table
  deletedSkus : List String
deriving DecidableEq, Repr

/-- The catch-block exit (sync-service.ts:123-137 and 264-278): push the
error message, log a `failed` ledger entry carrying the partial
`productsSynced`, and still return a result object. -/
def failOutcome (kind : String) (synced : Nat) (e : String) (startedAt logTime : Nat)
    (t : Table) : FullOutcome :=
  { result := { products_synced := synced, products_deleted := 0, errors := [e],
                started_at := startedAt, completed_at := logTime },
    ledger := [{ sync_type := kind, products_synced := synced, errors := [e],
                 started_at := startedAt, completed_at := some logTime, status := "failed" }],
    table := t,
    deletedSkus := [] }

/-- The success exit (sync-service.ts:113-121 and 254-262): log a
`success` ledger entry and return the counts. -/
def successOutcome (kind : String) (synced deleted : Nat) (startedAt logTime : Nat)
    (t : Table) (dels : List String) : FullOutcome :=
  { result := { products_synced := synced, products_deleted := deleted, errors := [],
                started_at := startedAt, completed_at := logTime },
    ledger := [{ sync_type := kind, products_synced := synced, errors := [],
                 started_at := startedAt, completed_at := some logTime, status := "success" }],
    table := t,
    deletedSkus := dels }

/-- The awaited calls of one `fullSync` invocation: each fetch/store
step either yields its value or throws an error message.  `upsertErr`
and `deleteErr` are consulted only when the corresponding call is made
(a skipped call cannot throw). -/
structure FullSyncEnv where
  catsRes : Except String (List LoyverseCategory)
  itemsRes : Except String (List LoyverseItem)
  varsRes : Except String (List LoyverseVariant)
  invsRes : Except String (List LoyverseInventory)
  upsertErr : Option String
  skusErr : Option String
  deleteErr : Option String
  startedAt : Nat
  logTime : Nat

/-- The method `fullSync` (sync-service.ts:17-147): fetch the four collections,
join, upsert when any product was prepared, enumerate persisted SKUs,
diff, delete when the diff is nonempty, and log exactly one ledger
entry on either exit path. -/
def fullSyncModel (env : FullSyncEnv) (t0 : Table) : FullOutcome :=
  match env.catsRes with
  | Except.error e => failOutcome "full" 0 e env.startedAt env.logTime t0
  | Except.ok cats =>
  match env.itemsRes with
  | Except.error e => failOutcome "full" 0 e env.startedAt env.logTime t0
  | Except.ok items =>
  match env.varsRes with
  | Except.error e => failOutcome "full" 0 e env.startedAt env.logTime t0
  | Except.ok vars =>
  match env.invsRes with
  | Except.error e => failOutcome "full" 0 e env.startedAt env.logTime t0
  | Except.ok invs =>
    let pd := joinedProducts cats items vars invs
    let valid := validProducts pd
    match (if pd.isEmpty then none else env.upsertErr) with
    | some e => failOutcome "full" 0 e env.startedAt env.logTime t0
    | none =>
      let synced := if pd.isEmpty then 0 else valid.length
      let t1 := tableUpsert t0 valid
      match env.skusErr with
      | some e => failOutcome "full" synced e env.startedAt env.logTime t1
      | none =>
        let dels := skusToDelete (tableKeys t1) pd
        match (if dels.isEmpty then none else env.deleteErr) with
        | some e => failOutcome "full" synced e env.startedAt env.logTime t1
        | none =>
          let deleted := if dels.isEmpty then 0 else deleteCount t1 dels
          successOutcome "full" synced deleted env.startedAt env.logTime
            (tableDelete t1 dels) dels

/-- An all-success `fullSync` environment over the given upstream data. -/
def okFullEnv (cats : List LoyverseCategory) (items : List LoyverseItem)
    (vars : List LoyverseVariant) (invs : List LoyverseInventory)
    (s l : Nat) : FullSyncEnv :=
  { catsRes := Except.ok cats, itemsRes := Except.ok items, varsRes := Except.ok vars,
    invsRes := Except.ok invs, upsertErr := none, skusErr := none, deleteErr := none,
    startedAt := s, logTime := l }

/-- Item ids referenced by updated variants but absent from the
incrementally fetched item map (sync-service.ts:193-198). -/
def neededItemIds (itemsMap : String → Option LoyverseItem)
    (vars : List LoyverseVariant) : List String :=
  (vars.filter (fun v => (itemsMap v.item_id).isNone)).map (fun v => v.item_id)

/-- The repair step (sync-service.ts:201-209): from a full item fetch,
copy into the lookup exactly the items whose id is needed (later
occurrences overwrite earlier, as with `Map.set`). -/
def repairItemsMap (itemsMap : String → Option LoyverseItem) (needed : List String)
    (allItems : List LoyverseItem) : String → Option LoyverseItem :=
  allItems.foldl
    (fun m it =>
      if needed.contains it.id then (fun k => if k = it.id then some it else m k) else m)
    itemsMap

/-- How many full item fetches the repair step performs
(sync-service.ts:201: the fetch is guarded by `itemIdsNeeded.size > 0`). -/
def repairFetchCount (itemsMap : String → Option LoyverseItem)
    (vars : List LoyverseVariant) : Nat :=
  if (neededItemIds itemsMap vars).isEmpty then 0 else 1

/-- The awaited calls of one `incrementalSync` invocation.
`getLastSyncTimestamp` (supabase-service.ts:75-89) returns null rather
than throwing, so it is a plain `Option`; `allItemsRes` is consulted
only when the repair fetch actually runs, and `fullEnv` only when the
pass degrades to a full sync. -/
structure IncSyncEnv where
  lastSync : Option Nat
  fullEnv : FullSyncEnv
  catsRes : Except String (List LoyverseCategory)
  itemsRes : Except String (List LoyverseItem)
  varsRes : Except String (List LoyverseVariant)
  allItemsRes : Except String (List LoyverseItem)
  invsRes : Except String (List LoyverseInventory)
  upsertErr : Option String
  startedAt : Nat
  logTime : Nat

/-- The method `incrementalSync` (sync-service.ts:152-288): degrade to `fullSync`
when no successful sync is recorded; otherwise fetch categories in
full, items and variants since the watermark, repair the item lookup,
fetch inventory in full, join, upsert, and log — never deleting. -/
def incrementalSyncModel (env : IncSyncEnv) (t0 : Table) : FullOutcome :=
  match env.lastSync with
  | none => fullSyncModel env.fullEnv t0
  | some _ =>
    match env.catsRes with
    | Except.error e => failOutcome "incremental" 0 e env.startedAt env.logTime t0
    | Except.ok cats =>
    match env.itemsRes with
    | Except.error e => failOutcome "incremental" 0 e env.startedAt env.logTime t0
    | Except.ok items =>
    match env.varsRes with
    | Except.error e => failOutcome "incremental" 0 e env.startedAt env.logTime t0
    | Except.ok vars =>
      let itemsMap0 := buildItemsMap items
      let needed := neededItemIds itemsMap0 vars
      match (if needed.isEmpty then Except.ok itemsMap0
             else (env.allItemsRes).map (fun allItems => repairItemsMap itemsMap0 needed allItems)) with
      | Except.error e => failOutcome "incremental" 0 e env.startedAt env.logTime t0
      | Except.ok itemsMap1 =>
      match env.invsRes with
      | Except.error e => failOutcome "incremental" 0 e env.startedAt env.logTime t0
      | Except.ok invs =>
        let pd := joinVariants (buildCategoryMap cats) itemsMap1 (buildInventoryMap invs)
          invs vars
        let valid := validProducts pd
        match (if pd.isEmpty then none else env.upsertErr) with
        | some e => failOutcome "incremental" 0 e env.startedAt env.logTime t0
        | none =>
          let synced := if pd.isEmpty then 0 else valid.length
          successOutcome "incremental" synced 0 env.startedAt env.logTime
            (tableUpsert t0 valid) []

/-- Specification-side tie-break (spec §3, invariant): among the rows
destined for the same SKU, the LAST one in iteration order is the one
that survives ("later overwrites earlier"). -/
def lastWrite (ps : List SupabaseProduct) (k : String) : Option SupabaseProduct :=
  match ps with
  | [] => none
  | p :: rest =>
    match lastWrite rest k with
    | some q => some q
    | none => if p.sku = k then some p else none

/-- The table reached by an all-success full sync: upsert, then delete
the diffed SKUs. -/
def fullSyncUpserted (cats : List LoyverseCategory) (items : List LoyverseItem)
    (vars : List LoyverseVariant) (invs : List LoyverseInventory) (t0 : Table) : Table :=
  tableUpsert t0 (validProducts (joinedProducts cats items vars invs))

/-- The SKUs the deletion diff issues on an all-success full sync. -/
def fullSyncDeletions (cats : List LoyverseCategory) (items : List LoyverseItem)
    (vars : List LoyverseVariant) (invs : List LoyverseInventory) (t0 : Table) : List String :=
  skusToDelete (tableKeys (fullSyncUpserted cats items vars invs t0))
    (joinedProducts cats items vars invs)

/-- The final table of an all-success full sync. -/
def fullSyncFinalTable (cats : List LoyverseCategory) (items : List LoyverseItem)
    (vars : List LoyverseVariant) (invs : List LoyverseInventory) (t0 : Table) : Table :=
  tableDelete (fullSyncUpserted cats items vars invs t0)
    (fullSyncDeletions cats items vars invs t0)

-- ======================================================================
-- Lemmas
-- ======================================================================

theorem buildInventoryMap_aux (invs : List LoyverseInventory)
    (m : String → Option Rat) (k : String) :
    ((invs.foldl
        (fun m inv => fun k =>
          if k = inv.variant_id then some ((m inv.variant_id).getD 0 + inv.in_stock) else m k)
        m) k).getD 0 = (m k).getD 0 + sumInStock invs k := by
  induction invs generalizing m with
  | nil => simp [sumInStock]
  | cons inv rest ih =>
    rw [List.foldl_cons, ih]
    by_cases h : k = inv.variant_id
    · subst h
      simp [sumInStock, List.filter_cons]
      ring
    · have hne : (inv.variant_id == k) = false := by
        simp [beq_iff_eq]
        exact fun he => h he.symm
      simp [sumInStock, List.filter_cons, hne, h]

/-- The aggregation loop computes the exact per-variant sum. -/
theorem buildInventoryMap_getD (invs : List LoyverseInventory) (k : String) :
    ((buildInventoryMap invs) k).getD 0 = sumInStock invs k := by
  rw [buildInventoryMap, buildInventoryMap_aux]
  simp

/-- The SKU column of the rows kept for persistence is exactly the
current pass's effective-SKU list. -/
theorem validProducts_skus (pd : List ProductWithInventory) :
    (validProducts pd).map (fun p => p.sku) = currentPassSkus pd := by
  induction pd with
  | nil => simp [validProducts, currentPassSkus]
  | cons p rest ih =>
    simp only [validProducts, currentPassSkus, List.map_cons, List.filter_cons] at *
    have hsku : (toSupabaseProduct p).sku = effectiveSku p.variant := rfl
    by_cases h : effectiveSku p.variant = ""
    · simp [hsku, h, ih]
    · simp [hsku, h, ih]

theorem tableHasKey_iff (t : Table) (k : String) :
    tableHasKey t k = true ↔ k ∈ tableKeys t := by
  simp [tableHasKey, tableKeys, List.any_eq_true, beq_iff_eq, List.mem_map]

theorem find?_replaceAll (t : Table) (p : SupabaseProduct) (k : String) (h : k ≠ p.sku) :
    (t.map (fun r => if r.sku == p.sku then p else r)).find? (fun r => r.sku == k) =
      t.find? (fun r => r.sku == k) := by
  induction t with
  | nil => rfl
  | cons r rest ih =>
    simp only [List.map_cons]
    by_cases hr : r.sku = p.sku
    · have h1 : (r.sku == p.sku) = true := beq_iff_eq.mpr hr
      have h2 : (p.sku == k) = false := beq_eq_false_iff_ne.mpr (Ne.symm h)
      have h3 : (r.sku == k) = false := beq_eq_false_iff_ne.mpr (hr ▸ Ne.symm h)
      rw [if_pos h1, List.find?_cons_of_neg _ (by simp [h2]),
        List.find?_cons_of_neg _ (by simp [h3])]
      exact ih
    · have h1 : (r.sku == p.sku) = false := beq_eq_false_iff_ne.mpr hr
      rw [if_neg (by simp [h1])]
      by_cases hk : r.sku = k
      · rw [List.find?_cons_of_pos _ (by simp [hk]), List.find?_cons_of_pos _ (by simp [hk])]
      · rw [List.find?_cons_of_neg _ (by simp [hk]), List.find?_cons_of_neg _ (by simp [hk])]
        exact ih

theorem find?_replaceAll_self (t : Table) (p : SupabaseProduct)
    (h : tableHasKey t p.sku = true) :
    (t.map (fun r => if r.sku == p.sku then p else r)).find? (fun r => r.sku == p.sku) =
      some p := by
  induction t with
  | nil => simp [tableHasKey] at h
  | cons r rest ih =>
    simp only [List.map_cons]
    by_cases hr : r.sku = p.sku
    · rw [if_pos (beq_iff_eq.mpr hr), List.find?_cons_of_pos _ (by simp)]
    · have h1 : (r.sku == p.sku) = false := beq_eq_false_iff_ne.mpr hr
      have hrest : tableHasKey rest p.sku = true := by
        simp only [tableHasKey, List.any_cons, h1, Bool.false_or] at h
        exact h
      rw [if_neg (by simp [h1]), List.find?_cons_of_neg _ (by simp [h1])]
      exact ih hrest

theorem tableGet_upsertOne (t : Table) (p : SupabaseProduct) (k : String) :
    tableGet (tableUpsertOne t p) k = if p.sku = k then some p else tableGet t k := by
  unfold tableUpsertOne tableGet
  by_cases hk : tableHasKey t p.sku = true
  · simp only [hk, if_true]
    by_cases hpk : p.sku = k
    · subst hpk
      rw [find?_replaceAll_self t p hk, if_pos rfl]
    · rw [find?_replaceAll t p k (fun he => hpk he.symm)]
      simp [hpk]
  · simp only [Bool.not_eq_true] at hk
    simp only [hk, Bool.false_eq_true, if_false, List.find?_append]
    by_cases hpk : p.sku = k
    · subst hpk
      have hnone : t.find? (fun r => r.sku == p.sku) = none := by
        apply List.find?_eq_none.mpr
        intro x hx
        have := (List.any_eq_false.mp hk) x hx
        simpa using this
      simp [hnone, List.find?]
    · have hone : ([p].find? (fun r => r.sku == k)) = none := by
        simp [List.find?, beq_eq_false_iff_ne.mpr hpk]
      simp [hone, hpk]

theorem lastWrite_sku (ps : List SupabaseProduct) (k : String) (q : SupabaseProduct)
    (h : lastWrite ps k = some q) : q.sku = k := by
  induction ps with
  | nil => simp [lastWrite] at h
  | cons p rest ih =>
    simp only [lastWrite] at h
    cases hlw : lastWrite rest k with
    | some r => rw [hlw] at h; exact ih (hlw.trans (by injection h with h2; rw [h2]))
    | none =>
      rw [hlw] at h
      by_cases hp : p.sku = k
      · simp [hp] at h; rw [← h]; exact hp
      · simp [hp] at h

theorem lastWrite_isSome_of_mem (ps : List SupabaseProduct) (p : SupabaseProduct)
    (h : p ∈ ps) : (lastWrite ps p.sku).isSome = true := by
  induction ps with
  | nil => simp at h
  | cons q rest ih =>
    simp only [lastWrite]
    cases hlw : lastWrite rest p.sku with
    | some r => simp
    | none =>
      rcases List.mem_cons.mp h with hq | hrest
      · subst hq; simp
      · have := ih hrest; rw [hlw] at this; simp at this

theorem tableGet_upsert (t : Table) (ps : List SupabaseProduct) (k : String) :
    tableGet (tableUpsert t ps) k =
      match lastWrite ps k with
      | some q => some q
      | none => tableGet t k := by
  induction ps generalizing t with
  | nil => rfl
  | cons p rest ih =>
    show tableGet (tableUpsert (tableUpsertOne t p) rest) k = _
    rw [ih]
    cases hlw : lastWrite rest k with
    | some q => simp [lastWrite, hlw]
    | none =>
      simp only [lastWrite, hlw, tableGet_upsertOne]
      by_cases hp : p.sku = k <;> simp [hp]

theorem mem_tableUpsertOne (t : Table) (p r : SupabaseProduct)
    (h : r ∈ tableUpsertOne t p) : r = p ∨ (r ∈ t ∧ r.sku ≠ p.sku) := by
  unfold tableUpsertOne at h
  by_cases hk : tableHasKey t p.sku = true
  · rw [if_pos hk] at h
    rcases List.mem_map.mp h with ⟨r0, hr0, heq⟩
    by_cases hr : r0.sku = p.sku
    · left; rw [← heq, if_pos (beq_iff_eq.mpr hr)]
    · right
      rw [← heq, if_neg (by simp [beq_eq_false_iff_ne.mpr hr])]
      exact ⟨hr0, hr⟩
  · simp only [Bool.not_eq_true] at hk
    rw [if_neg (by simp [hk])] at h
    rcases List.mem_append.mp h with hmem | hp
    · right
      refine ⟨hmem, ?_⟩
      have := (List.any_eq_false.mp hk) r hmem
      simpa using this
    · left; simpa using hp

theorem mem_tableUpsert (t : Table) (ps : List SupabaseProduct) (r : SupabaseProduct)
    (h : r ∈ tableUpsert t ps) :
    lastWrite ps r.sku = some r ∨ (lastWrite ps r.sku = none ∧ r ∈ t) := by
  induction ps generalizing t with
  | nil => exact Or.inr ⟨rfl, h⟩
  | cons p rest ih =>
    have h' : r ∈ tableUpsert (tableUpsertOne t p) rest := h
    rcases ih (tableUpsertOne t p) h' with hlast | ⟨hnone, hmem⟩
    · left; simp [lastWrite, hlast]
    · rcases mem_tableUpsertOne t p r hmem with hp | ⟨hmem2, hne⟩
      · left
        subst hp
        simp [lastWrite, hnone]
      · right
        constructor
        · simp [lastWrite, hnone, Ne.symm hne]
        · exact hmem2

theorem map_id_of_mem {α : Type} (l : List α) (f : α → α) (h : ∀ x ∈ l, f x = x) :
    l.map f = l := by
  conv_rhs => rw [← List.map_id l]
  exact List.map_eq_map_iff.mpr (by simpa using h)

theorem tableKeys_upsertOne (t : Table) (p : SupabaseProduct) :
    tableKeys (tableUpsertOne t p) =
      if tableHasKey t p.sku then tableKeys t else tableKeys t ++ [p.sku] := by
  unfold tableUpsertOne tableKeys
  by_cases hk : tableHasKey t p.sku = true
  · rw [if_pos hk, if_pos hk, List.map_map]
    apply List.map_eq_map_iff.mpr
    intro r _
    by_cases hr2 : r.sku = p.sku
    · simp [Function.comp, beq_iff_eq.mpr hr2, hr2]
    · simp [Function.comp, beq_eq_false_iff_ne.mpr hr2]
  · rw [if_neg hk, if_neg hk]
    simp

theorem tableKeys_nodup_upsertOne (t : Table) (p : SupabaseProduct)
    (h : (tableKeys t).Nodup) : (tableKeys (tableUpsertOne t p)).Nodup := by
  rw [tableKeys_upsertOne]
  by_cases hk : tableHasKey t p.sku = true
  · rwa [if_pos hk]
  · rw [if_neg hk]
    have hnot : p.sku ∉ tableKeys t := fun hmem => hk ((tableHasKey_iff t p.sku).mpr hmem)
    simp [List.nodup_append, h, hnot]

theorem tableKeys_nodup_upsert (t : Table) (ps : List SupabaseProduct)
    (h : (tableKeys t).Nodup) : (tableKeys (tableUpsert t ps)).Nodup := by
  induction ps generalizing t with
  | nil => exact h
  | cons p rest ih =>
    show (tableKeys (tableUpsert (tableUpsertOne t p) rest)).Nodup
    exact ih _ (tableKeys_nodup_upsertOne t p h)

theorem mem_tableKeys_iff_get (t : Table) (k : String) :
    k ∈ tableKeys t ↔ (tableGet t k).isSome = true := by
  rw [tableGet, List.find?_isSome]
  simp [tableKeys, List.mem_map, beq_iff_eq]

theorem mem_tableKeys_delete (t : Table) (skus : List String) (k : String) :
    k ∈ tableKeys (tableDelete t skus) ↔ k ∈ tableKeys t ∧ ¬ k ∈ skus := by
  simp only [tableKeys, tableDelete, List.mem_map, List.mem_filter]
  constructor
  · rintro ⟨r, ⟨hrt, hc⟩, rfl⟩
    refine ⟨⟨r, hrt, rfl⟩, ?_⟩
    simpa [List.elem_iff] using hc
  · rintro ⟨⟨r, hrt, rfl⟩, hns⟩
    exact ⟨r, ⟨hrt, by simpa [List.elem_iff] using hns⟩, rfl⟩

theorem tableDelete_nil (t : Table) : tableDelete t [] = t := by
  unfold tableDelete
  apply List.filter_eq_self.mpr
  intro r _
  simp [List.elem_iff]

theorem tableHasKey_map_replace (t : Table) (p : SupabaseProduct) (k : String) :
    tableHasKey (t.map (fun r => if r.sku == p.sku then p else r)) k = tableHasKey t k := by
  apply Bool.eq_iff_iff.mpr
  simp only [tableHasKey, List.any_eq_true, List.mem_map]
  constructor
  · rintro ⟨x, ⟨r, hr, rfl⟩, hx⟩
    refine ⟨r, hr, ?_⟩
    by_cases hre : r.sku = p.sku
    · rw [if_pos (beq_iff_eq.mpr hre)] at hx
      rwa [hre]
    · rwa [if_neg (by simp [beq_eq_false_iff_ne.mpr hre])] at hx
  · rintro ⟨r, hr, hx⟩
    refine ⟨_, ⟨r, hr, rfl⟩, ?_⟩
    by_cases hre : r.sku = p.sku
    · rw [if_pos (beq_iff_eq.mpr hre)]
      rwa [hre] at hx
    · rwa [if_neg (by simp [beq_eq_false_iff_ne.mpr hre])]

theorem tableUpsert_allKeys (t : Table) (ps : List SupabaseProduct)
    (h : ∀ p ∈ ps, tableHasKey t p.sku = true) :
    tableUpsert t ps = t.map (fun r =>
      match lastWrite ps r.sku with
      | some q => q
      | none => r) := by
  induction ps generalizing t with
  | nil =>
    show t = _
    symm
    apply map_id_of_mem
    intro r _
    rfl
  | cons p rest ih =>
    have hp : tableHasKey t p.sku = true := h p (List.mem_cons_self _ _)
    show tableUpsert (tableUpsertOne t p) rest = _
    have hone : tableUpsertOne t p = t.map (fun r => if r.sku == p.sku then p else r) := by
      unfold tableUpsertOne
      rw [if_pos hp]
    rw [hone]
    have hkeys : ∀ q ∈ rest,
        tableHasKey (t.map (fun r => if r.sku == p.sku then p else r)) q.sku = true := by
      intro q hq
      rw [tableHasKey_map_replace]
      exact h q (List.mem_cons_of_mem _ hq)
    rw [ih _ hkeys, List.map_map]
    apply List.map_eq_map_iff.mpr
    intro r _
    simp only [Function.comp]
    by_cases hre : r.sku = p.sku
    · rw [if_pos (beq_iff_eq.mpr hre)]
      cases hlw : lastWrite rest r.sku with
      | some q =>
        have hlw2 : lastWrite rest p.sku = some q := hre ▸ hlw
        simp [lastWrite, hlw, hlw2]
      | none =>
        have hlw2 : lastWrite rest p.sku = none := hre ▸ hlw
        simp [lastWrite, hlw, hlw2, hre.symm]
    · rw [if_neg (by simp [beq_eq_false_iff_ne.mpr hre])]
      cases hlw : lastWrite rest r.sku with
      | some q => simp [lastWrite, hlw]
      | none => simp [lastWrite, hlw, Ne.symm hre]

theorem fullSyncModel_shape (env : FullSyncEnv) (t0 : Table) :
    (∃ synced e t,
      fullSyncModel env t0 = failOutcome "full" synced e env.startedAt env.logTime t) ∨
    (∃ synced deleted t dels,
      fullSyncModel env t0 =
        successOutcome "full" synced deleted env.startedAt env.logTime t dels) := by
  unfold fullSyncModel
  dsimp only
  repeat' split
  all_goals first
  | exact Or.inl ⟨_, _, _, rfl⟩
  | exact Or.inr ⟨_, _, _, _, rfl⟩

theorem incrementalSyncModel_shape (env : IncSyncEnv) (t0 : Table) :
    incrementalSyncModel env t0 = fullSyncModel env.fullEnv t0 ∨
    (∃ synced e t,
      incrementalSyncModel env t0 =
        failOutcome "incremental" synced e env.startedAt env.logTime t) ∨
    (∃ synced t,
      incrementalSyncModel env t0 =
        successOutcome "incremental" synced 0 env.startedAt env.logTime t []) := by
  unfold incrementalSyncModel
  dsimp only
  repeat' split
  all_goals first
  | exact Or.inl rfl
  | exact Or.inr (Or.inl ⟨_, _, _, rfl⟩)
  | exact Or.inr (Or.inr ⟨_, _, rfl⟩)

theorem fullSyncModel_ok (cats : List LoyverseCategory) (items : List LoyverseItem)
    (vars : List LoyverseVariant) (invs : List LoyverseInventory) (s l : Nat) (t0 : Table) :
    fullSyncModel (okFullEnv cats items vars invs s l) t0 =
      successOutcome "full"
        (if (joinedProducts cats items vars invs).isEmpty then 0
         else (validProducts (joinedProducts cats items vars invs)).length)
        (if (fullSyncDeletions cats items vars invs t0).isEmpty then 0
         else deleteCount (fullSyncUpserted cats items vars invs t0)
                (fullSyncDeletions cats items vars invs t0))
        s l (fullSyncFinalTable cats items vars invs t0)
        (fullSyncDeletions cats items vars invs t0) := by
  unfold fullSyncModel okFullEnv fullSyncFinalTable fullSyncDeletions fullSyncUpserted
  simp only [ite_self]

theorem fullSyncFinalTable_keys_current (cats : List LoyverseCategory)
    (items : List LoyverseItem) (vars : List LoyverseVariant)
    (invs : List LoyverseInventory) (t0 : Table) :
    ∀ k ∈ tableKeys (fullSyncFinalTable cats items vars invs t0),
      k ∈ currentPassSkus (joinedProducts cats items vars invs) := by
  intro k hk
  unfold fullSyncFinalTable at hk
  rw [mem_tableKeys_delete] at hk
  rcases hk with ⟨hmem, hnot⟩
  by_contra hcur
  apply hnot
  unfold fullSyncDeletions skusToDelete
  rw [List.mem_filter]
  exact ⟨hmem, by simp [List.elem_iff, hcur]⟩

theorem mem_valid_hasKey_final (cats : List LoyverseCategory) (items : List LoyverseItem)
    (vars : List LoyverseVariant) (invs : List LoyverseInventory) (t0 : Table) :
    ∀ p ∈ validProducts (joinedProducts cats items vars invs),
      tableHasKey (fullSyncFinalTable cats items vars invs t0) p.sku = true := by
  intro p hp
  have hcur : p.sku ∈ currentPassSkus (joinedProducts cats items vars invs) := by
    rw [← validProducts_skus]
    exact List.mem_map.mpr ⟨p, hp, rfl⟩
  have hup : p.sku ∈ tableKeys (fullSyncUpserted cats items vars invs t0) := by
    rw [mem_tableKeys_iff_get]
    unfold fullSyncUpserted
    rw [tableGet_upsert]
    cases hlw : lastWrite (validProducts (joinedProducts cats items vars invs)) p.sku with
    | none =>
      have := lastWrite_isSome_of_mem _ p hp
      rw [hlw] at this
      simp at this
    | some q => simp
  have hnotdel : ¬ p.sku ∈ fullSyncDeletions cats items vars invs t0 := by
    unfold fullSyncDeletions skusToDelete
    rw [List.mem_filter]
    rintro ⟨-, hcond⟩
    simp [List.elem_iff] at hcond
    exact hcond hcur
  rw [tableHasKey_iff]
  unfold fullSyncFinalTable
  rw [mem_tableKeys_delete]
  exact ⟨hup, hnotdel⟩

theorem final_mem_lastWrite (cats : List LoyverseCategory) (items : List LoyverseItem)
    (vars : List LoyverseVariant) (invs : List LoyverseInventory) (t0 : Table) :
    ∀ r ∈ fullSyncFinalTable cats items vars invs t0,
      (match lastWrite (validProducts (joinedProducts cats items vars invs)) r.sku with
        | some q => q
        | none => r) = r := by
  intro r hr
  have hrt1 : r ∈ fullSyncUpserted cats items vars invs t0 := List.mem_of_mem_filter hr
  rcases mem_tableUpsert t0 (validProducts (joinedProducts cats items vars invs)) r hrt1 with
    hsome | ⟨hnone, -⟩
  · rw [hsome]
  · rw [hnone]

theorem fullSync_upsert_identity (cats : List LoyverseCategory) (items : List LoyverseItem)
    (vars : List LoyverseVariant) (invs : List LoyverseInventory) (t0 : Table) :
    tableUpsert (fullSyncFinalTable cats items vars invs t0)
      (validProducts (joinedProducts cats items vars invs)) =
      fullSyncFinalTable cats items vars invs t0 := by
  rw [tableUpsert_allKeys _ _ (mem_valid_hasKey_final cats items vars invs t0)]
  exact map_id_of_mem _ _ (final_mem_lastWrite cats items vars invs t0)

theorem fullSync_second_dels (cats : List LoyverseCategory) (items : List LoyverseItem)
    (vars : List LoyverseVariant) (invs : List LoyverseInventory) (t0 : Table) :
    fullSyncDeletions cats items vars invs (fullSyncFinalTable cats items vars invs t0) = [] := by
  have hup : fullSyncUpserted cats items vars invs (fullSyncFinalTable cats items vars invs t0) =
      fullSyncFinalTable cats items vars invs t0 :=
    fullSync_upsert_identity cats items vars invs t0
  unfold fullSyncDeletions
  rw [hup]
  unfold skusToDelete
  apply List.filter_eq_nil_iff.mpr
  intro k hk
  have := fullSyncFinalTable_keys_current cats items vars invs t0 k hk
  simp [List.elem_iff, this]

theorem fullSync_second_table (cats : List LoyverseCategory) (items : List LoyverseItem)
    (vars : List LoyverseVariant) (invs : List LoyverseInventory) (t0 : Table) :
    fullSyncFinalTable cats items vars invs (fullSyncFinalTable cats items vars invs t0) =
      fullSyncFinalTable cats items vars invs t0 := by
  conv_lhs => rw [fullSyncFinalTable]
  rw [fullSync_second_dels, tableDelete_nil]
  unfold fullSyncUpserted
  exact fullSync_upsert_identity cats items vars invs t0

theorem repairItemsMap_cons (m : String → Option LoyverseItem) (needed : List String)
    (it : LoyverseItem) (rest : List LoyverseItem) :
    repairItemsMap m needed (it :: rest) =
      repairItemsMap
        (if needed.contains it.id then (fun k => if k = it.id then some it else m k) else m)
        needed rest := rfl

theorem repairItemsMap_preserves (allItems : List LoyverseItem)
    (m : String → Option LoyverseItem) (needed : List String) (k : String)
    (h : (m k).isSome = true) : ((repairItemsMap m needed allItems) k).isSome = true := by
  induction allItems generalizing m with
  | nil => exact h
  | cons it rest ih =>
    rw [repairItemsMap_cons]
    by_cases hc : needed.contains it.id = true
    · rw [if_pos hc]
      apply ih
      by_cases hk : k = it.id
      · simp [hk]
      · simpa [hk] using h
    · rw [if_neg hc]
      exact ih m h

theorem repairItemsMap_hits (allItems : List LoyverseItem)
    (m : String → Option LoyverseItem) (needed : List String) (it : LoyverseItem)
    (hmem : it ∈ allItems) (hneed : it.id ∈ needed) :
    ((repairItemsMap m needed allItems) it.id).isSome = true := by
  induction allItems generalizing m with
  | nil => simp at hmem
  | cons it0 rest ih =>
    rw [repairItemsMap_cons]
    rcases List.mem_cons.mp hmem with heq | hrest
    · subst heq
      have hc : needed.contains it.id = true := by simp [List.elem_iff, hneed]
      rw [if_pos hc]
      apply repairItemsMap_preserves
      simp
    · exact ih _ hrest

theorem repairItemsMap_only_needed (allItems : List LoyverseItem)
    (m : String → Option LoyverseItem) (needed : List String) (k : String)
    (h : (repairItemsMap m needed allItems) k ≠ m k) : k ∈ needed := by
  induction allItems generalizing m with
  | nil => exact absurd rfl h
  | cons it rest ih =>
    rw [repairItemsMap_cons] at h
    by_cases hc : needed.contains it.id = true
    · rw [if_pos hc] at h
      by_cases hk : k = it.id
      · subst hk
        simpa [List.elem_iff] using hc
      · apply ih
        intro hEq
        apply h
        rw [hEq]
        simp [hk]
    · rw [if_neg hc] at h
      exact ih m h

theorem neededItemIds_mem (itemsMap : String → Option LoyverseItem)
    (vars : List LoyverseVariant) (v : LoyverseVariant)
    (hv : v ∈ vars) (hmiss : (itemsMap v.item_id).isNone = true) :
    v.item_id ∈ neededItemIds itemsMap vars := by
  unfold neededItemIds
  exact List.mem_map.mpr ⟨v, List.mem_filter.mpr ⟨hv, hmiss⟩, rfl⟩

theorem repairItemsMap_covers (itemsMap : String → Option LoyverseItem)
    (vars : List LoyverseVariant) (allItems : List LoyverseItem) (v : LoyverseVariant)
    (hv : v ∈ vars) (hup : ∃ it ∈ allItems, it.id = v.item_id) :
    ((repairItemsMap itemsMap (neededItemIds itemsMap vars) allItems) v.item_id).isSome
      = true := by
  cases hm : itemsMap v.item_id with
  | some it0 => exact repairItemsMap_preserves _ _ _ _ (by simp [hm])
  | none =>
    have hneed : v.item_id ∈ neededItemIds itemsMap vars :=
      neededItemIds_mem itemsMap vars v hv (by simp [hm])
    rcases hup with ⟨it, hit, hid⟩
    have := repairItemsMap_hits allItems itemsMap (neededItemIds itemsMap vars) it hit
      (by rw [hid]; exact hneed)
    rwa [hid] at this

theorem neededItemIds_nil (itemsMap : String → Option LoyverseItem)
    (vars : List LoyverseVariant) (h : neededItemIds itemsMap vars = []) :
    ∀ v ∈ vars, (itemsMap v.item_id).isSome = true := by
  intro v hv
  by_contra hno
  have hmiss : (itemsMap v.item_id).isNone = true := by
    cases hx : itemsMap v.item_id with
    | none => rfl
    | some it => rw [hx] at hno; simp at hno
  have := neededItemIds_mem itemsMap vars v hv hmiss
  rw [h] at this
  simp at this

theorem jsNumOr0_eq (q : Rat) : jsNumOr0 q = q := by
  unfold jsNumOr0
  by_cases h : q = 0
  · rw [if_pos h, h]
  · rw [if_neg h]

theorem mem_joinVariants_in_stock (cm : String → Option String)
    (im : String → Option LoyverseItem) (invm : String → Option Rat)
    (invs : List LoyverseInventory) (vars : List LoyverseVariant)
    (p : ProductWithInventory) (h : p ∈ joinVariants cm im invm invs vars) :
    p.inventory.in_stock = (invm p.variant.variant_id).getD 0 := by
  unfold joinVariants at h
  rcases List.mem_filterMap.mp h with ⟨v, _, hp⟩
  cases him : im v.item_id with
  | none => rw [him] at hp; simp at hp
  | some item =>
    rw [him] at hp
    simp only [Option.some_inj] at hp
    subst hp
    dsimp only
    cases hro : invs.find? (fun inv => inv.variant_id == v.variant_id) <;> simp [hro]

-- ======================================================================
-- Claim theorems
-- ======================================================================

/-- C1: on a full sync pass the SKUs issued for deletion are exactly the
persisted SKUs minus the current pass's effective SKUs: membership in the
diff is equivalent to being persisted and not current (so a SKU in both
sets, or only in the current pass, is never deleted), and the all-success
full-sync pass issues exactly this computed set to the store. -/
theorem C1_deletion_set :
    (∀ (existing : List String) (pd : List ProductWithInventory) (s : String),
      s ∈ skusToDelete existing pd ↔ s ∈ existing ∧ ¬ s ∈ currentPassSkus pd) ∧
    (∀ (cats : List LoyverseCategory) (items : List LoyverseItem)
        (vars : List LoyverseVariant) (invs : List LoyverseInventory)
        (s l : Nat) (t0 : Table),
      (fullSyncModel (okFullEnv cats items vars invs s l) t0).deletedSkus =
        skusToDelete (tableKeys (fullSyncUpserted cats items vars invs t0))
          (joinedProducts cats items vars invs)) := by
  constructor
  · intro existing pd s
    unfold skusToDelete
    rw [List.mem_filter]
    simp [List.elem_iff]
  · intro cats items vars invs s l t0
    rw [fullSyncModel_ok]
    rfl

/-- C3: every full or incremental sync invocation — whatever the outcome
of its awaited steps — appends exactly one ledger entry, and that entry
carries a non-null completion timestamp. -/
theorem C3_ledger_totality (fe : FullSyncEnv) (ie : IncSyncEnv) (t0 t1 : Table) :
    ((fullSyncModel fe t0).ledger.length = 1 ∧
      ((fullSyncModel fe t0).ledger.all (fun en => en.completed_at.isSome)) = true) ∧
    ((incrementalSyncModel ie t1).ledger.length = 1 ∧
      ((incrementalSyncModel ie t1).ledger.all (fun en => en.completed_at.isSome)) = true) := by
  have hf : ∀ (fe : FullSyncEnv) (t : Table),
      (fullSyncModel fe t).ledger.length = 1 ∧
      ((fullSyncModel fe t).ledger.all (fun en => en.completed_at.isSome)) = true := by
    intro fe t
    rcases fullSyncModel_shape fe t with ⟨a, e, tt, heq⟩ | ⟨a, b, tt, d, heq⟩ <;>
      rw [heq] <;> exact ⟨rfl, rfl⟩
  refine ⟨hf fe t0, ?_⟩
  rcases incrementalSyncModel_shape ie t1 with heq | ⟨a, e, tt, heq⟩ | ⟨a, tt, heq⟩
  · rw [heq]; exact hf ie.fullEnv t1
  · rw [heq]; exact ⟨rfl, rfl⟩
  · rw [heq]; exact ⟨rfl, rfl⟩

theorem fullSyncModel_fail_cats (env : FullSyncEnv) (t0 : Table) (e : String)
    (h : env.catsRes = Except.error e) :
    fullSyncModel env t0 = failOutcome "full" 0 e env.startedAt env.logTime t0 := by
  unfold fullSyncModel
  rw [h]

theorem fullSyncModel_fail_items (env : FullSyncEnv) (t0 : Table)
    (cats : List LoyverseCategory) (e : String)
    (hc : env.catsRes = Except.ok cats) (h : env.itemsRes = Except.error e) :
    fullSyncModel env t0 = failOutcome "full" 0 e env.startedAt env.logTime t0 := by
  unfold fullSyncModel
  rw [hc, h]

theorem fullSyncModel_fail_vars (env : FullSyncEnv) (t0 : Table)
    (cats : List LoyverseCategory) (items : List LoyverseItem) (e : String)
    (hc : env.catsRes = Except.ok cats) (hi : env.itemsRes = Except.ok items)
    (h : env.varsRes = Except.error e) :
    fullSyncModel env t0 = failOutcome "full" 0 e env.startedAt env.logTime t0 := by
  unfold fullSyncModel
  rw [hc, hi, h]

theorem fullSyncModel_fail_invs (env : FullSyncEnv) (t0 : Table)
    (cats : List LoyverseCategory) (items : List LoyverseItem)
    (vars : List LoyverseVariant) (e : String)
    (hc : env.catsRes = Except.ok cats) (hi : env.itemsRes = Except.ok items)
    (hv : env.varsRes = Except.ok vars) (h : env.invsRes = Except.error e) :
    fullSyncModel env t0 = failOutcome "full" 0 e env.startedAt env.logTime t0 := by
  unfold fullSyncModel
  rw [hc, hi, hv, h]

theorem fullSyncModel_fail_upsert (env : FullSyncEnv) (t0 : Table)
    (cats : List LoyverseCategory) (items : List LoyverseItem)
    (vars : List LoyverseVariant) (invs : List LoyverseInventory) (e : String)
    (hc : env.catsRes = Except.ok cats) (hi : env.itemsRes = Except.ok items)
    (hv : env.varsRes = Except.ok vars) (hn : env.invsRes = Except.ok invs)
    (hpd : joinedProducts cats items vars invs ≠ [])
    (hu : env.upsertErr = some e) :
    fullSyncModel env t0 = failOutcome "full" 0 e env.startedAt env.logTime t0 := by
  unfold fullSyncModel
  rw [hc, hi, hv, hn]
  dsimp only
  cases hj : joinedProducts cats items vars invs with
  | nil => exact absurd hj hpd
  | cons a rest =>
    rw [if_neg (by simp), hu]

theorem fullSyncModel_fail_skus (env : FullSyncEnv) (t0 : Table)
    (cats : List LoyverseCategory) (items : List LoyverseItem)
    (vars : List LoyverseVariant) (invs : List LoyverseInventory) (e : String)
    (hc : env.catsRes = Except.ok cats) (hi : env.itemsRes = Except.ok items)
    (hv : env.varsRes = Except.ok vars) (hn : env.invsRes = Except.ok invs)
    (hdisj : joinedProducts cats items vars invs = [] ∨ env.upsertErr = none)
    (hs : env.skusErr = some e) :
    fullSyncModel env t0 =
      failOutcome "full"
        (if (joinedProducts cats items vars invs).isEmpty then 0
         else (validProducts (joinedProducts cats items vars invs)).length)
        e env.startedAt env.logTime
        (tableUpsert t0 (validProducts (joinedProducts cats items vars invs))) := by
  unfold fullSyncModel
  rw [hc, hi, hv, hn]
  dsimp only
  rcases hdisj with hpd | hu
  · rw [hpd, if_pos (by rfl), hs]
  · cases hj : joinedProducts cats items vars invs with
    | nil => rw [if_pos (by rfl), hs]
    | cons a rest => rw [if_neg (by simp), hu, hs]

theorem fullSyncModel_fail_delete (env : FullSyncEnv) (t0 : Table)
    (cats : List LoyverseCategory) (items : List LoyverseItem)
    (vars : List LoyverseVariant) (invs : List LoyverseInventory) (e : String)
    (hc : env.catsRes = Except.ok cats) (hi : env.itemsRes = Except.ok items)
    (hv : env.varsRes = Except.ok vars) (hn : env.invsRes = Except.ok invs)
    (hdisj : joinedProducts cats items vars invs = [] ∨ env.upsertErr = none)
    (hs : env.skusErr = none)
    (hd : skusToDelete
        (tableKeys (tableUpsert t0 (validProducts (joinedProducts cats items vars invs))))
        (joinedProducts cats items vars invs) ≠ [])
    (hde : env.deleteErr = some e) :
    fullSyncModel env t0 =
      failOutcome "full"
        (if (joinedProducts cats items vars invs).isEmpty then 0
         else (validProducts (joinedProducts cats items vars invs)).length)
        e env.startedAt env.logTime
        (tableUpsert t0 (validProducts (joinedProducts cats items vars invs))) := by
  unfold fullSyncModel
  rw [hc, hi, hv, hn]
  dsimp only
  have hstep : ∀ (synced : Nat),
      (match env.skusErr with
       | some e2 => failOutcome "full" synced e2 env.startedAt env.logTime
           (tableUpsert t0 (validProducts (joinedProducts cats items vars invs)))
       | none =>
         match (if (skusToDelete
             (tableKeys (tableUpsert t0 (validProducts (joinedProducts cats items vars invs))))
             (joinedProducts cats items vars invs)).isEmpty then none else env.deleteErr) with
         | some e2 => failOutcome "full" synced e2 env.startedAt env.logTime
             (tableUpsert t0 (validProducts (joinedProducts cats items vars invs)))
         | none =>
           successOutcome "full" synced
             (if (skusToDelete
                 (tableKeys (tableUpsert t0 (validProducts (joinedProducts cats items vars invs))))
                 (joinedProducts cats items vars invs)).isEmpty then 0
              else deleteCount (tableUpsert t0 (validProducts (joinedProducts cats items vars invs)))
                (skusToDelete
                  (tableKeys (tableUpsert t0 (validProducts (joinedProducts cats items vars invs))))
                  (joinedProducts cats items vars invs)))
             env.startedAt env.logTime
             (tableDelete (tableUpsert t0 (validProducts (joinedProducts cats items vars invs)))
               (skusToDelete
                 (tableKeys (tableUpsert t0 (validProducts (joinedProducts cats items vars invs))))
                 (joinedProducts cats items vars invs)))
             (skusToDelete
               (tableKeys (tableUpsert t0 (validProducts (joinedProducts cats items vars invs))))
               (joinedProducts cats items vars invs))) =
      failOutcome "full" synced e env.startedAt env.logTime
        (tableUpsert t0 (validProducts (joinedProducts cats items vars invs))) := by
    intro synced
    rw [hs]
    cases hdl : skusToDelete
        (tableKeys (tableUpsert t0 (validProducts (joinedProducts cats items vars invs))))
        (joinedProducts cats items vars invs) with
    | nil => exact absurd hdl hd
    | cons a rest => rw [if_neg (by simp), hde]
  rcases hdisj with hpd | hu
  · rw [hpd, if_pos (by rfl)]
    have := hstep 0
    rw [hpd] at this
    exact this
  · cases hj : joinedProducts cats items vars invs with
    | nil =>
      rw [if_pos (by rfl)]
      have := hstep (if (joinedProducts cats items vars invs).isEmpty then 0
        else (validProducts (joinedProducts cats items vars invs)).length)
      rw [hj] at this
      exact this
    | cons a rest =>
      rw [if_neg (by simp), hu]
      have := hstep (if (joinedProducts cats items vars invs).isEmpty then 0
        else (validProducts (joinedProducts cats items vars invs)).length)
      rw [hj] at this
      exact this

theorem incrementalSyncModel_degrade_eq (env : IncSyncEnv) (t0 : Table)
    (h : env.lastSync = none) :
    incrementalSyncModel env t0 = fullSyncModel env.fullEnv t0 := by
  unfold incrementalSyncModel
  rw [h]

theorem incrementalSyncModel_fail_cats (env : IncSyncEnv) (t0 : Table) (ts : Nat) (e : String)
    (hl : env.lastSync = some ts) (h : env.catsRes = Except.error e) :
    incrementalSyncModel env t0 =
      failOutcome "incremental" 0 e env.startedAt env.logTime t0 := by
  unfold incrementalSyncModel
  rw [hl, h]

theorem incrementalSyncModel_fail_items (env : IncSyncEnv) (t0 : Table) (ts : Nat)
    (cats : List LoyverseCategory) (e : String)
    (hl : env.lastSync = some ts) (hc : env.catsRes = Except.ok cats)
    (h : env.itemsRes = Except.error e) :
    incrementalSyncModel env t0 =
      failOutcome "incremental" 0 e env.startedAt env.logTime t0 := by
  unfold incrementalSyncModel
  rw [hl, hc, h]

theorem incrementalSyncModel_fail_vars (env : IncSyncEnv) (t0 : Table) (ts : Nat)
    (cats : List LoyverseCategory) (items : List LoyverseItem) (e : String)
    (hl : env.lastSync = some ts) (hc : env.catsRes = Except.ok cats)
    (hi : env.itemsRes = Except.ok items) (h : env.varsRes = Except.error e) :
    incrementalSyncModel env t0 =
      failOutcome "incremental" 0 e env.startedAt env.logTime t0 := by
  unfold incrementalSyncModel
  rw [hl, hc, hi, h]

theorem incrementalSyncModel_fail_allItems (env : IncSyncEnv) (t0 : Table) (ts : Nat)
    (cats : List LoyverseCategory) (items : List LoyverseItem)
    (vars : List LoyverseVariant) (e : String)
    (hl : env.lastSync = some ts) (hc : env.catsRes = Except.ok cats)
    (hi : env.itemsRes = Except.ok items) (hv : env.varsRes = Except.ok vars)
    (hne : neededItemIds (buildItemsMap items) vars ≠ [])
    (ha : env.allItemsRes = Except.error e) :
    incrementalSyncModel env t0 =
      failOutcome "incremental" 0 e env.startedAt env.logTime t0 := by
  unfold incrementalSyncModel
  rw [hl, hc, hi, hv]
  dsimp only
  cases hn : neededItemIds (buildItemsMap items) vars with
  | nil => exact absurd hn hne
  | cons a rest =>
    rw [if_neg (by simp), ha]
    rfl

theorem incrementalSyncModel_fail_invs (env : IncSyncEnv) (t0 : Table) (ts : Nat)
    (cats : List LoyverseCategory) (items : List LoyverseItem)
    (vars : List LoyverseVariant) (im1 : String → Option LoyverseItem) (e : String)
    (hl : env.lastSync = some ts) (hc : env.catsRes = Except.ok cats)
    (hi : env.itemsRes = Except.ok items) (hv : env.varsRes = Except.ok vars)
    (hrep : (if (neededItemIds (buildItemsMap items) vars).isEmpty then
        Except.ok (buildItemsMap items)
      else Except.map
        (fun ai => repairItemsMap (buildItemsMap items)
          (neededItemIds (buildItemsMap items) vars) ai)
        env.allItemsRes) = Except.ok im1)
    (h : env.invsRes = Except.error e) :
    incrementalSyncModel env t0 =
      failOutcome "incremental" 0 e env.startedAt env.logTime t0 := by
  unfold incrementalSyncModel
  rw [hl, hc, hi, hv]
  dsimp only
  rw [hrep, h]

theorem incrementalSyncModel_fail_upsert (env : IncSyncEnv) (t0 : Table) (ts : Nat)
    (cats : List LoyverseCategory) (items : List LoyverseItem)
    (vars : List LoyverseVariant) (im1 : String → Option LoyverseItem)
    (invs : List LoyverseInventory) (e : String)
    (hl : env.lastSync = some ts) (hc : env.catsRes = Except.ok cats)
    (hi : env.itemsRes = Except.ok items) (hv : env.varsRes = Except.ok vars)
    (hrep : (if (neededItemIds (buildItemsMap items) vars).isEmpty then
        Except.ok (buildItemsMap items)
      else Except.map
        (fun ai => repairItemsMap (buildItemsMap items)
          (neededItemIds (buildItemsMap items) vars) ai)
        env.allItemsRes) = Except.ok im1)
    (hn : env.invsRes = Except.ok invs)
    (hpd : joinVariants (buildCategoryMap cats) im1 (buildInventoryMap invs) invs vars ≠ [])
    (hu : env.upsertErr = some e) :
    incrementalSyncModel env t0 =
      failOutcome "incremental" 0 e env.startedAt env.logTime t0 := by
  unfold incrementalSyncModel
  rw [hl, hc, hi, hv]
  dsimp only
  rw [hrep]
  dsimp only
  rw [hn]
  dsimp only
  cases hj : joinVariants (buildCategoryMap cats) im1 (buildInventoryMap invs) invs vars with
  | nil => exact absurd hj hpd
  | cons a rest => rw [if_neg (by simp), hu]

/-- C6: for every failure thrown at any pipeline stage of either sync
pass — each conjunct fixes one awaited stage, assumes the stages before
it succeeded and that stage threw the message `e` — the whole invocation
equals the catch-block exit `failOutcome`: the result's error list is
exactly `[e]` (caught once, the thrown message recorded), the single
ledger entry has status `failed` and carries the same message together
with the partial `productsSynced` achieved before the failure (0 before
the upsert completes, the upserted count after), and a `SyncResult` is
returned since the models are total.  The degrade conjunct routes a
watermark-less incremental request into the full pass, whose conjuncts
then cover its failures. -/
theorem C6_failure_handling :
    (∀ (env : FullSyncEnv) (t0 : Table) (e : String),
      env.catsRes = Except.error e →
      fullSyncModel env t0 = failOutcome "full" 0 e env.startedAt env.logTime t0) ∧
    (∀ (env : FullSyncEnv) (t0 : Table) (cats : List LoyverseCategory) (e : String),
      env.catsRes = Except.ok cats → env.itemsRes = Except.error e →
      fullSyncModel env t0 = failOutcome "full" 0 e env.startedAt env.logTime t0) ∧
    (∀ (env : FullSyncEnv) (t0 : Table) (cats : List LoyverseCategory)
        (items : List LoyverseItem) (e : String),
      env.catsRes = Except.ok cats → env.itemsRes = Except.ok items →
      env.varsRes = Except.error e →
      fullSyncModel env t0 = failOutcome "full" 0 e env.startedAt env.logTime t0) ∧
    (∀ (env : FullSyncEnv) (t0 : Table) (cats : List LoyverseCategory)
        (items : List LoyverseItem) (vars : List LoyverseVariant) (e : String),
      env.catsRes = Except.ok cats → env.itemsRes = Except.ok items →
      env.varsRes = Except.ok vars → env.invsRes = Except.error e →
      fullSyncModel env t0 = failOutcome "full" 0 e env.startedAt env.logTime t0) ∧
    (∀ (env : FullSyncEnv) (t0 : Table) (cats : List LoyverseCategory)
        (items : List LoyverseItem) (vars : List LoyverseVariant)
        (invs : List LoyverseInventory) (e : String),
      env.catsRes = Except.ok cats → env.itemsRes = Except.ok items →
      env.varsRes = Except.ok vars → env.invsRes = Except.ok invs →
      joinedProducts cats items vars invs ≠ [] → env.upsertErr = some e →
      fullSyncModel env t0 = failOutcome "full" 0 e env.startedAt env.logTime t0) ∧
    (∀ (env : FullSyncEnv) (t0 : Table) (cats : List LoyverseCategory)
        (items : List LoyverseItem) (vars : List LoyverseVariant)
        (invs : List LoyverseInventory) (e : String),
      env.catsRes = Except.ok cats → env.itemsRes = Except.ok items →
      env.varsRes = Except.ok vars → env.invsRes = Except.ok invs →
      (joinedProducts cats items vars invs = [] ∨ env.upsertErr = none) →
      env.skusErr = some e →
      fullSyncModel env t0 =
        failOutcome "full"
          (if (joinedProducts cats items vars invs).isEmpty then 0
           else (validProducts (joinedProducts cats items vars invs)).length)
          e env.startedAt env.logTime
          (tableUpsert t0 (validProducts (joinedProducts cats items vars invs)))) ∧
    (∀ (env : FullSyncEnv) (t0 : Table) (cats : List LoyverseCategory)
        (items : List LoyverseItem) (vars : List LoyverseVariant)
        (invs : List LoyverseInventory) (e : String),
      env.catsRes = Except.ok cats → env.itemsRes = Except.ok items →
      env.varsRes = Except.ok vars → env.invsRes = Except.ok invs →
      (joinedProducts cats items vars invs = [] ∨ env.upsertErr = none) →
      env.skusErr = none →
      skusToDelete
        (tableKeys (tableUpsert t0 (validProducts (joinedProducts cats items vars invs))))
        (joinedProducts cats items vars invs) ≠ [] →
      env.deleteErr = some e →
      fullSyncModel env t0 =
        failOutcome "full"
          (if (joinedProducts cats items vars invs).isEmpty then 0
           else (validProducts (joinedProducts cats items vars invs)).length)
          e env.startedAt env.logTime
          (tableUpsert t0 (validProducts (joinedProducts cats items vars invs)))) ∧
    (∀ (env : IncSyncEnv) (t0 : Table),
      env.lastSync = none →
      incrementalSyncModel env t0 = fullSyncModel env.fullEnv t0) ∧
    (∀ (env : IncSyncEnv) (t0 : Table) (ts : Nat) (e : String),
      env.lastSync = some ts → env.catsRes = Except.error e →
      incrementalSyncModel env t0 =
        failOutcome "incremental" 0 e env.startedAt env.logTime t0) ∧
    (∀ (env : IncSyncEnv) (t0 : Table) (ts : Nat) (cats : List LoyverseCategory)
        (e : String),
      env.lastSync = some ts → env.catsRes = Except.ok cats →
      env.itemsRes = Except.error e →
      incrementalSyncModel env t0 =
        failOutcome "incremental" 0 e env.startedAt env.logTime t0) ∧
    (∀ (env : IncSyncEnv) (t0 : Table) (ts : Nat) (cats : List LoyverseCategory)
        (items : List LoyverseItem) (e : String),
      env.lastSync = some ts → env.catsRes = Except.ok cats →
      env.itemsRes = Except.ok items → env.varsRes = Except.error e →
      incrementalSyncModel env t0 =
        failOutcome "incremental" 0 e env.startedAt env.logTime t0) ∧
    (∀ (env : IncSyncEnv) (t0 : Table) (ts : Nat) (cats : List LoyverseCategory)
        (items : List LoyverseItem) (vars : List LoyverseVariant) (e : String),
      env.lastSync = some ts → env.catsRes = Except.ok cats →
      env.itemsRes = Except.ok items → env.varsRes = Except.ok vars →
      neededItemIds (buildItemsMap items) vars ≠ [] →
      env.allItemsRes = Except.error e →
      incrementalSyncModel env t0 =
        failOutcome "incremental" 0 e env.startedAt env.logTime t0) ∧
    (∀ (env : IncSyncEnv) (t0 : Table) (ts : Nat) (cats : List LoyverseCategory)
        (items : List LoyverseItem) (vars : List LoyverseVariant)
        (im1 : String → Option LoyverseItem) (e : String),
      env.lastSync = some ts → env.catsRes = Except.ok cats →
      env.itemsRes = Except.ok items → env.varsRes = Except.ok vars →
      (if (neededItemIds (buildItemsMap items) vars).isEmpty then
          Except.ok (buildItemsMap items)
        else Except.map
          (fun ai => repairItemsMap (buildItemsMap items)
            (neededItemIds (buildItemsMap items) vars) ai)
          env.allItemsRes) = Except.ok im1 →
      env.invsRes = Except.error e →
      incrementalSyncModel env t0 =
        failOutcome "incremental" 0 e env.startedAt env.logTime t0) ∧
    (∀ (env : IncSyncEnv) (t0 : Table) (ts : Nat) (cats : List LoyverseCategory)
        (items : List LoyverseItem) (vars : List LoyverseVariant)
        (im1 : String → Option LoyverseItem) (invs : List LoyverseInventory) (e : String),
      env.lastSync = some ts → env.catsRes = Except.ok cats →
      env.itemsRes = Except.ok items → env.varsRes = Except.ok vars →
      (if (neededItemIds (buildItemsMap items) vars).isEmpty then
          Except.ok (buildItemsMap items)
        else Except.map
          (fun ai => repairItemsMap (buildItemsMap items)
            (neededItemIds (buildItemsMap items) vars) ai)
          env.allItemsRes) = Except.ok im1 →
      env.invsRes = Except.ok invs →
      joinVariants (buildCategoryMap cats) im1 (buildInventoryMap invs) invs vars ≠ [] →
      env.upsertErr = some e →
      incrementalSyncModel env t0 =
        failOutcome "incremental" 0 e env.startedAt env.logTime t0) :=
  ⟨fullSyncModel_fail_cats, fullSyncModel_fail_items, fullSyncModel_fail_vars,
   fullSyncModel_fail_invs, fullSyncModel_fail_upsert, fullSyncModel_fail_skus,
   fullSyncModel_fail_delete, incrementalSyncModel_degrade_eq,
   incrementalSyncModel_fail_cats, incrementalSyncModel_fail_items,
   incrementalSyncModel_fail_vars, incrementalSyncModel_fail_allItems,
   incrementalSyncModel_fail_invs, incrementalSyncModel_fail_upsert⟩

/-- Item fetched upstream in the C6 witness data. -/
def c6item : LoyverseItem :=
  { id := "i1", item_name := "Gadget", description := none, category_id := none }

/-- Variant fetched upstream in the C6 witness data. -/
def c6variant : LoyverseVariant :=
  { variant_id := "v1", item_id := "i1", sku := some "NEW", option1_value := none,
    option2_value := none, option3_value := none, default_price := 1 }

/-- A stale persisted row, so the deletion phase has work to do. -/
def c6stale : SupabaseProduct :=
  { sku := "OLD", name := "Stale", category := none, desc := none, price := 1, qty := 0,
    image := none }

/-- Full-sync environment whose delete step throws after a successful
upsert of one product. -/
def c6fullEnv : FullSyncEnv :=
  { catsRes := Except.ok [], itemsRes := Except.ok [c6item],
    varsRes := Except.ok [c6variant], invsRes := Except.ok [],
    upsertErr := none, skusErr := none, deleteErr := some "delete failed",
    startedAt := 3, logTime := 4 }

/-- Incremental environment (watermark present) whose items fetch throws. -/
def c6incEnv : IncSyncEnv :=
  { lastSync := some 1, fullEnv := c6fullEnv, catsRes := Except.ok [],
    itemsRes := Except.error "items fetch failed", varsRes := Except.ok [],
    allItemsRes := Except.ok [], invsRes := Except.ok [], upsertErr := none,
    startedAt := 5, logTime := 6 }

/-- C6 witness: a delete-stage failure after one product was upserted
yields the failed outcome carrying the thrown message and the partial
count 1, and an incremental items-fetch failure yields the failed
incremental outcome carrying its thrown message. -/
theorem C6_failure_handling_witness :
    fullSyncModel c6fullEnv [c6stale] =
      failOutcome "full"
        (if (joinedProducts [] [c6item] [c6variant] []).isEmpty then 0
         else (validProducts (joinedProducts [] [c6item] [c6variant] [])).length)
        "delete failed" 3 4
        (tableUpsert [c6stale] (validProducts (joinedProducts [] [c6item] [c6variant] []))) ∧
    (fullSyncModel c6fullEnv [c6stale]).result.errors = ["delete failed"] ∧
    (fullSyncModel c6fullEnv [c6stale]).result.products_synced = 1 ∧
    (fullSyncModel c6fullEnv [c6stale]).ledger.map
        (fun en => (en.status, en.errors, en.products_synced)) =
      [("failed", ["delete failed"], 1)] ∧
    incrementalSyncModel c6incEnv [] =
      failOutcome "incremental" 0 "items fetch failed" 5 6 [] :=
  ⟨C6_failure_handling.2.2.2.2.2.2.1 c6fullEnv [c6stale] [] [c6item] [c6variant] []
      "delete failed" rfl rfl rfl rfl (Or.inr rfl) rfl (by with_unfolding_all decide) rfl,
   by with_unfolding_all decide,
   by with_unfolding_all decide,
   by with_unfolding_all decide,
   C6_failure_handling.2.2.2.2.2.2.2.2.2.1 c6incEnv [] 1 [] "items fetch failed"
     rfl rfl rfl⟩

/-- Item used by the C2 SKU-collision example. -/
def c2item : LoyverseItem :=
  { id := "i1", item_name := "Shirt", description := none, category_id := none }

/-- First colliding variant (SKU "A", price 1). -/
def c2v1 : LoyverseVariant :=
  { variant_id := "v1", item_id := "i1", sku := some "A", option1_value := none,
    option2_value := none, option3_value := none, default_price := 1 }

/-- Second colliding variant (SKU "A", price 2). -/
def c2v2 : LoyverseVariant :=
  { variant_id := "v2", item_id := "i1", sku := some "A", option1_value := none,
    option2_value := none, option3_value := none, default_price := 2 }

/-- C2 counterexample: with two variants both carrying SKU "A", the join
stage's output sequence carries the effective SKU twice — it is NOT
unique across the sequence produced by the join stage. -/
theorem C2_counterexample :
    ((validProducts (joinedProducts [] [c2item] [c2v1, c2v2] [])).map
        (fun p => p.sku)) = ["A", "A"] ∧
    ¬ ((validProducts (joinedProducts [] [c2item] [c2v1, c2v2] [])).map
        (fun p => p.sku)).Nodup := by
  with_unfolding_all decide

/-- C2 (amended): the join stage's output sequence may repeat an
effective SKU; uniqueness holds in the PERSISTED table instead — upserting
the prepared rows into a table with unique SKUs keeps its SKU column
duplicate-free, and the row stored under a collided SKU is the one from
the later variant in iteration order (last-write-wins). -/
theorem C2_sku_last_write_wins (cats : List LoyverseCategory) (items : List LoyverseItem)
    (vars : List LoyverseVariant) (invs : List LoyverseInventory)
    (t : Table) (k : String) (h : (tableKeys t).Nodup) :
    (tableKeys (tableUpsert t (validProducts (joinedProducts cats items vars invs)))).Nodup ∧
    tableGet (tableUpsert t (validProducts (joinedProducts cats items vars invs))) k =
      (match lastWrite (validProducts (joinedProducts cats items vars invs)) k with
       | some q => some q
       | none => tableGet t k) :=
  ⟨tableKeys_nodup_upsert t _ h, tableGet_upsert t _ k⟩

/-- C2 witness: the amended theorem applied to the collision example;
the persisted row under "A" is the one built from the later variant
`c2v2` (price 2). -/
theorem C2_sku_last_write_wins_witness :
    ((tableKeys (tableUpsert ([] : Table)
        (validProducts (joinedProducts [] [c2item] [c2v1, c2v2] [])))).Nodup ∧
      tableGet (tableUpsert ([] : Table)
          (validProducts (joinedProducts [] [c2item] [c2v1, c2v2] []))) "A" =
        (match lastWrite (validProducts (joinedProducts [] [c2item] [c2v1, c2v2] [])) "A" with
         | some q => some q
         | none => tableGet ([] : Table) "A")) ∧
    tableGet (tableUpsert ([] : Table)
        (validProducts (joinedProducts [] [c2item] [c2v1, c2v2] []))) "A" =
      some { sku := "A", name := "Shirt", category := none, desc := none, price := 2,
             qty := 0, image := none } :=
  ⟨C2_sku_last_write_wins [] [c2item] [c2v1, c2v2] [] [] "A" (by decide),
   by with_unfolding_all decide⟩

/-- C4: the aggregated per-variant quantity is the exact rational sum of
`in_stock` over the records of that variant (zero when it has none,
negative sums passed through unclamped), and every product emitted by
the join persists `qty` as the floor of that sum. -/
theorem C4_quantity_aggregation :
    (∀ (invs : List LoyverseInventory) (vid : String),
      ((buildInventoryMap invs) vid).getD 0 = sumInStock invs vid) ∧
    (∀ (invs : List LoyverseInventory) (vid : String),
      (∀ r ∈ invs, r.variant_id ≠ vid) → ((buildInventoryMap invs) vid).getD 0 = 0) ∧
    (∀ (cats : List LoyverseCategory) (items : List LoyverseItem)
        (vars : List LoyverseVariant) (invs : List LoyverseInventory)
        (p : ProductWithInventory), p ∈ joinedProducts cats items vars invs →
      (toSupabaseProduct p).qty = Rat.floor (sumInStock invs p.variant.variant_id)) := by
  refine ⟨buildInventoryMap_getD, ?_, ?_⟩
  · intro invs vid h
    rw [buildInventoryMap_getD]
    unfold sumInStock
    rw [List.filter_eq_nil_iff.mpr]
    · rfl
    · intro r hr
      simp [beq_eq_false_iff_ne.mpr (h r hr)]
  · intro cats items vars invs p hp
    have hstock := mem_joinVariants_in_stock _ _ _ _ _ p hp
    have hqty : (toSupabaseProduct p).qty = Rat.floor (jsNumOr0 p.inventory.in_stock) := rfl
    rw [hqty, jsNumOr0_eq, hstock, buildInventoryMap_getD]

/-- Item for the C4 witness. -/
def c4item : LoyverseItem :=
  { id := "i1", item_name := "Widget", description := none, category_id := none }

/-- Variant for the C4 witness. -/
def c4variant : LoyverseVariant :=
  { variant_id := "v1", item_id := "i1", sku := some "S1", option1_value := none,
    option2_value := none, option3_value := none, default_price := 2 }

/-- Inventory for the C4 witness: 1.5 and −0.5 for "v1" across two
stores (sum 1), plus a record for an unrelated variant. -/
def c4invs : List LoyverseInventory :=
  [{ variant_id := "v1", store_id := "s1", in_stock := mkRat 3 2 },
   { variant_id := "v1", store_id := "s2", in_stock := mkRat (-1) 2 },
   { variant_id := "vX", store_id := "s1", in_stock := 7 }]

/-- The product the join emits for the C4 witness data. -/
def c4joined : ProductWithInventory :=
  { variant := c4variant, item := c4item,
    inventory := { variant_id := "v1", store_id := "s1", in_stock := 1 },
    categoryName := none }

/-- C4 witness: the aggregation theorem applied to concrete data — a
variant with no records yields 0, and the persisted `qty` of the joined
product equals the floor of the exact store-sum (here 1.5 − 0.5 = 1). -/
theorem C4_quantity_aggregation_witness :
    (∀ r ∈ c4invs, r.variant_id ≠ "zzz") ∧
    ((buildInventoryMap c4invs) "zzz").getD 0 = 0 ∧
    c4joined ∈ joinedProducts [] [c4item] [c4variant] c4invs ∧
    (toSupabaseProduct c4joined).qty = Rat.floor (sumInStock c4invs c4joined.variant.variant_id) ∧
    sumInStock c4invs "v1" = 1 :=
  ⟨by decide,
   C4_quantity_aggregation.2.1 c4invs "zzz" (by decide),
   by with_unfolding_all decide,
   C4_quantity_aggregation.2.2 [] [c4item] [c4variant] c4invs c4joined
     (by with_unfolding_all decide),
   by with_unfolding_all decide⟩

/-- All-success full-sync environment for the C5 example. -/
def c5fullEnv : FullSyncEnv := okFullEnv [] [] [] [] 0 0

/-- A product row persisted before the C5 pass, absent upstream. -/
def c5prod : SupabaseProduct :=
  { sku := "X", name := "Old", category := none, desc := none, price := 1, qty := 0,
    image := none }

/-- Incremental-sync environment with NO prior successful sync. -/
def c5env : IncSyncEnv :=
  { lastSync := none, fullEnv := c5fullEnv, catsRes := Except.ok [],
    itemsRes := Except.ok [], varsRes := Except.ok [], allItemsRes := Except.ok [],
    invsRes := Except.ok [], upsertErr := none, startedAt := 0, logTime := 0 }

/-- C5 counterexample: with no prior successful sync and the persisted
row "X" absent upstream, the incremental request routes through the full
sync, whose deletion phase fires and deletes "X" — the pass does NOT
"delete nothing". -/
theorem C5_counterexample :
    (incrementalSyncModel c5env [c5prod]).result.products_deleted = 1 ∧
    (incrementalSyncModel c5env [c5prod]).deletedSkus = ["X"] ∧
    (incrementalSyncModel c5env [c5prod]).table = [] := by
  with_unfolding_all decide

/-- C5 (amended): if no prior successful sync is recorded, an incremental
sync request performs exactly a full sync — including the full sync's
deletion phase, which may delete persisted SKUs absent from the current
pass (it deletes nothing only when every persisted SKU is current). -/
theorem C5_incremental_degrade (env : IncSyncEnv) (t0 : Table)
    (h : env.lastSync = none) :
    incrementalSyncModel env t0 = fullSyncModel env.fullEnv t0 := by
  unfold incrementalSyncModel
  rw [h]

/-- C5 witness: the degrade theorem applied to the concrete
no-prior-sync environment. -/
theorem C5_incremental_degrade_witness :
    c5env.lastSync = none ∧
    incrementalSyncModel c5env [c5prod] = fullSyncModel c5fullEnv [c5prod] :=
  ⟨rfl, C5_incremental_degrade c5env [c5prod] rfl⟩

/-- C7: during the incremental repair step, the full item fetch happens
exactly once when some variant's item reference is missing from the
incrementally fetched lookup and not at all otherwise; only needed ids
are copied from the full fetch into the lookup; and afterwards every
referenced item that exists upstream is present (already-present entries
when nothing is needed, repaired entries otherwise). -/
theorem C7_incremental_item_repair :
    (∀ (itemsMap : String → Option LoyverseItem) (vars : List LoyverseVariant),
      (neededItemIds itemsMap vars = [] → repairFetchCount itemsMap vars = 0) ∧
      (neededItemIds itemsMap vars ≠ [] → repairFetchCount itemsMap vars = 1)) ∧
    (∀ (itemsMap : String → Option LoyverseItem) (vars : List LoyverseVariant)
        (allItems : List LoyverseItem) (k : String),
      (repairItemsMap itemsMap (neededItemIds itemsMap vars) allItems) k ≠ itemsMap k →
        k ∈ neededItemIds itemsMap vars) ∧
    (∀ (itemsMap : String → Option LoyverseItem) (vars : List LoyverseVariant)
        (allItems : List LoyverseItem) (v : LoyverseVariant),
      v ∈ vars → (∃ it ∈ allItems, it.id = v.item_id) →
      ((repairItemsMap itemsMap (neededItemIds itemsMap vars) allItems) v.item_id).isSome
        = true) ∧
    (∀ (itemsMap : String → Option LoyverseItem) (vars : List LoyverseVariant),
      neededItemIds itemsMap vars = [] → ∀ v ∈ vars, (itemsMap v.item_id).isSome = true) := by
  refine ⟨?_, ?_, ?_, neededItemIds_nil⟩
  · intro m vs
    constructor
    · intro h
      unfold repairFetchCount
      rw [h]
      rfl
    · intro h
      cases hl : neededItemIds m vs with
      | nil => exact absurd hl h
      | cons a rest => unfold repairFetchCount; rw [hl]; rfl
  · intro m vs ai k h
    exact repairItemsMap_only_needed ai m (neededItemIds m vs) k h
  · intro m vs ai v hv hup
    exact repairItemsMap_covers m vs ai v hv hup

/-- Item already fetched incrementally in the C7 witness. -/
def c7itemA : LoyverseItem :=
  { id := "iA", item_name := "A", description := none, category_id := none }

/-- Item missing from the incremental fetch in the C7 witness. -/
def c7itemB : LoyverseItem :=
  { id := "iB", item_name := "B", description := none, category_id := none }

/-- Updated variant referencing the missing item. -/
def c7varB : LoyverseVariant :=
  { variant_id := "vB", item_id := "iB", sku := none, option1_value := none,
    option2_value := none, option3_value := none, default_price := 0 }

/-- C7 witness: with one variant whose item is missing the repair fetch
count is one, and after repairing from the full fetch the referenced
item "iB" is present in the lookup. -/
theorem C7_incremental_item_repair_witness :
    neededItemIds (buildItemsMap [c7itemA]) [c7varB] ≠ [] ∧
    repairFetchCount (buildItemsMap [c7itemA]) [c7varB] = 1 ∧
    ((repairItemsMap (buildItemsMap [c7itemA])
        (neededItemIds (buildItemsMap [c7itemA]) [c7varB])
        [c7itemA, c7itemB]) "iB").isSome = true :=
  ⟨by decide,
   (C7_incremental_item_repair.1 (buildItemsMap [c7itemA]) [c7varB]).2 (by decide),
   C7_incremental_item_repair.2.2.1 (buildItemsMap [c7itemA]) [c7varB]
     [c7itemA, c7itemB] c7varB (by decide) (by decide)⟩

/-- C8: the composed product name is the item name followed, exactly
when at least one option value is present, by the parenthesized
comma-joined present option values in option1 → option2 → option3
order; with no options the name is the bare item name. -/
theorem C8_name_composition :
    (∀ (item : LoyverseItem) (v : LoyverseVariant),
      optionValues v = [] → composeName item v = item.item_name) ∧
    (∀ (item : LoyverseItem) (v : LoyverseVariant), optionValues v ≠ [] →
      composeName item v =
        item.item_name ++ " (" ++ String.intercalate ", " (optionValues v) ++ ")") ∧
    (∀ (item : LoyverseItem) (v : LoyverseVariant),
      item.item_name = "Shirt" → v.option1_value = some "Red" →
      v.option2_value = some "Large" → v.option3_value = none →
      composeName item v = "Shirt (Red, Large)") := by
  refine ⟨?_, ?_, ?_⟩
  · intro item v h
    unfold composeName
    rw [h]
    rfl
  · intro item v h
    unfold composeName
    rw [if_pos (List.length_pos.mpr h)]
  · intro item v h1 h2 h3 h4
    have hov : optionValues v = ["Red", "Large"] := by
      unfold optionValues
      rw [h2, h3, h4]
      with_unfolding_all rfl
    unfold composeName
    rw [hov, h1]
    with_unfolding_all rfl

/-- Item for the C8 witness. -/
def c8item : LoyverseItem :=
  { id := "i1", item_name := "Shirt", description := none, category_id := none }

/-- Variant with option1 "Red", option2 "Large", option3 absent. -/
def c8vRL : LoyverseVariant :=
  { variant_id := "v1", item_id := "i1", sku := none, option1_value := some "Red",
    option2_value := some "Large", option3_value := none, default_price := 0 }

/-- Variant with no options set. -/
def c8vPlain : LoyverseVariant :=
  { variant_id := "v2", item_id := "i1", sku := none, option1_value := none,
    option2_value := none, option3_value := none, default_price := 0 }

/-- C8 witness: the composition theorem applied to the two concrete
examples of the claim. -/
theorem C8_name_composition_witness :
    composeName c8item c8vRL = "Shirt (Red, Large)" ∧
    composeName c8item c8vPlain = "Shirt" :=
  ⟨C8_name_composition.2.2 c8item c8vRL rfl rfl rfl rfl,
   C8_name_composition.1 c8item c8vPlain (by decide)⟩

/-- C9: running the all-success full sync twice over identical upstream
data leaves the persisted table of the first run unchanged, and the
second run's deletion set is empty. -/
theorem C9_full_sync_idempotent (cats : List LoyverseCategory) (items : List LoyverseItem)
    (vars : List LoyverseVariant) (invs : List LoyverseInventory)
    (s l : Nat) (t0 : Table) :
    (fullSyncModel (okFullEnv cats items vars invs s l)
        ((fullSyncModel (okFullEnv cats items vars invs s l) t0).table)).table =
      (fullSyncModel (okFullEnv cats items vars invs s l) t0).table ∧
    (fullSyncModel (okFullEnv cats items vars invs s l)
        ((fullSyncModel (okFullEnv cats items vars invs s l) t0).table)).deletedSkus = [] := by
  have h1 : (fullSyncModel (okFullEnv cats items vars invs s l) t0).table =
      fullSyncFinalTable cats items vars invs t0 := by
    rw [fullSyncModel_ok]
    rfl
  rw [h1, fullSyncModel_ok]
  exact ⟨fullSync_second_table cats items vars invs t0,
    fullSync_second_dels cats items vars invs t0⟩

/-- C10: when the join yields no products, the all-success full sync
skips the upsert (zero synced), yet the deletion diff runs against an
empty current-SKU set, so every persisted SKU is issued for deletion and
the table ends empty with the full prior row count reported deleted. -/
theorem C10_empty_join_deletes_all (cats : List LoyverseCategory)
    (items : List LoyverseItem) (vars : List LoyverseVariant)
    (invs : List LoyverseInventory) (s l : Nat) (t0 : Table)
    (h : joinedProducts cats items vars invs = []) :
    (fullSyncModel (okFullEnv cats items vars invs s l) t0).result.products_synced = 0 ∧
    (fullSyncModel (okFullEnv cats items vars invs s l) t0).deletedSkus = tableKeys t0 ∧
    (fullSyncModel (okFullEnv cats items vars invs s l) t0).table = [] ∧
    (fullSyncModel (okFullEnv cats items vars invs s l) t0).result.products_deleted
      = t0.length := by
  have hvalid : validProducts (joinedProducts cats items vars invs) = [] := by
    rw [h]; rfl
  have hup : fullSyncUpserted cats items vars invs t0 = t0 := by
    unfold fullSyncUpserted
    rw [hvalid]
    rfl
  have hcur : currentPassSkus (joinedProducts cats items vars invs) = [] := by
    rw [h]; rfl
  have hdels : fullSyncDeletions cats items vars invs t0 = tableKeys t0 := by
    unfold fullSyncDeletions skusToDelete
    rw [hup, hcur]
    apply List.filter_eq_self.mpr
    intro a _
    simp
  have htab : fullSyncFinalTable cats items vars invs t0 = [] := by
    unfold fullSyncFinalTable tableDelete
    rw [hdels, hup]
    apply List.filter_eq_nil_iff.mpr
    intro r hr
    simp only [Bool.not_eq_true', Bool.not_eq_false]
    simp [List.elem_iff, tableKeys, List.mem_map]
    exact ⟨r, hr, rfl⟩
  have hdc : deleteCount t0 (tableKeys t0) = t0.length := by
    unfold deleteCount
    have : t0.filter (fun r => (tableKeys t0).contains r.sku) = t0 := by
      apply List.filter_eq_self.mpr
      intro r hr
      simp [List.elem_iff, tableKeys, List.mem_map]
      exact ⟨r, hr, rfl⟩
    rw [this]
  rw [fullSyncModel_ok]
  refine ⟨by simp [successOutcome, h], by simp [successOutcome, hdels],
    by simp [successOutcome, htab], ?_⟩
  show (if (fullSyncDeletions cats items vars invs t0).isEmpty then 0
        else deleteCount (fullSyncUpserted cats items vars invs t0)
          (fullSyncDeletions cats items vars invs t0)) = t0.length
  rw [hdels, hup, hdc]
  cases t0 with
  | nil => rfl
  | cons r rest => rfl

/-- A persisted row for the C10 witness. -/
def c10prod : SupabaseProduct :=
  { sku := "P1", name := "Old", category := none, desc := none, price := 1, qty := 2,
    image := none }

/-- C10 witness: the empty-join theorem applied to empty upstream data
over a one-row table — the single persisted SKU is deleted. -/
theorem C10_empty_join_deletes_all_witness :
    joinedProducts [] [] [] [] = [] ∧
    (fullSyncModel (okFullEnv [] [] [] [] 0 0) [c10prod]).deletedSkus = tableKeys [c10prod] ∧
    (fullSyncModel (okFullEnv [] [] [] [] 0 0) [c10prod]).table = [] ∧
    (fullSyncModel (okFullEnv [] [] [] [] 0 0) [c10prod]).result.products_deleted = 1 :=
  ⟨rfl,
   (C10_empty_join_deletes_all [] [] [] [] 0 0 [c10prod] rfl).2.1,
   (C10_empty_join_deletes_all [] [] [] [] 0 0 [c10prod] rfl).2.2.1,
   (C10_empty_join_deletes_all [] [] [] [] 0 0 [c10prod] rfl).2.2.2⟩
